import Mathlib

/-!
Verification development for the BinanceFutures trading client
(src/futures/binance_api.py of CryptoTradeForge/CryptoAPI).

The Python client is shallowly embedded: every exchange interaction is
modelled by an explicit oracle/response value passed in as input, floats
are modelled as rationals (every Python float is decimal-representable
through its shortest repr, which is what the code feeds to Decimal), and
an uncaught Python exception is modelled as the error branch of Except.
-/

namespace CryptoAPI

/-- Response of one exchange call: either a payload or a
BinanceAPIException carrying its message. -/
inductive ApiResp (α : Type) where
  | ok (val : α)
  | apiErr (msg : String)
deriving DecidableEq, Repr

/-- Embedding of BinanceFutures._modify_symbol_name:
symbol.replace("/", "").upper(). -/
def modify_symbol_name (symbol : String) : String :=
  (symbol.replace "/" "").toUpper

/-- Truth of side.upper() == "BUY" or side.upper() == "LONG", the test the
client uses throughout to decide the long direction. -/
def isBuyish (side : String) : Bool :=
  side.toUpper == "BUY" || side.toUpper == "LONG"

/-! Decimal truncation (BinanceFutures._truncate_to_precision).

The Python code runs str(Decimal(str(value)).quantize(Decimal("1.0...0"),
rounding=ROUND_DOWN)).  Decimal(str(value)) recovers the decimal literal of
the value, quantize with ROUND_DOWN truncates toward zero at the requested
number of fractional digits, and str prints the quantized decimal with
exactly that many fractional digits (none, and no point, when the
precision is 0).  Decimal keeps the sign of the operand, so a negative
value truncated to zero prints with a leading minus sign. -/

/-- Truncation of a rational toward zero, as an integer.  For a rational in
lowest terms with positive denominator this is num tdiv den, and Int.tdiv
is exactly truncation toward zero. -/
def ratTruncInt (q : ℚ) : Int := q.num.tdiv (q.den : Int)

/-- Character of one decimal digit. -/
def digitChar (d : Nat) : Char := Char.ofNat (48 + d)

/-- Decimal digit characters of a natural number, most significant first,
computed with an explicit fuel argument so that the kernel can evaluate it
(any fuel above the number itself is enough). -/
def natDigitsAux : Nat → Nat → List Char
  | 0, _ => []
  | fuel + 1, n =>
      if n < 10 then [digitChar n]
      else natDigitsAux fuel (n / 10) ++ [digitChar (n % 10)]

/-- Decimal digit characters of a natural number, most significant first,
with 0 rendered as "0". -/
def natDecDigits (n : Nat) : List Char := natDigitsAux (n + 1) n

/-- Rendering of a quantized Decimal with absolute mantissa a, sign flag
neg and exponent -p, as Python str prints it. -/
def renderQuantized (neg : Bool) (a : Nat) (p : Nat) : List Char :=
  let sign := if neg then ['-'] else []
  if p = 0 then sign ++ natDecDigits a
  else
    let ip := a / 10 ^ p
    let fp := a % 10 ^ p
    let fpd := natDecDigits fp
    sign ++ natDecDigits ip ++ ['.'] ++ (List.replicate (p - fpd.length) '0' ++ fpd)

/-- Embedding of BinanceFutures._truncate_to_precision(value, precision):
truncate toward zero at precision fractional digits and print the decimal
string. -/
def truncate_to_precision (value : ℚ) (precision : Nat) : String :=
  String.mk (renderQuantized (decide (value < 0))
    (ratTruncInt (value * 10 ^ precision)).natAbs precision)

/-- Rational value denoted by the string truncate_to_precision returns. -/
def truncValue (value : ℚ) (precision : Nat) : ℚ :=
  (ratTruncInt (value * 10 ^ precision) : ℚ) / 10 ^ precision

/-- Number of characters after the first decimal point of a string
(0 when there is no point). -/
def fracDigitCount (s : String) : Nat :=
  ((s.data.dropWhile (fun c => c != '.')).drop 1).length

lemma digitChar_ne_dot {d : Nat} (h : d < 10) : digitChar d ≠ '.' := by
  interval_cases d <;> decide

lemma natDigitsAux_chars {fuel n : Nat} (h : n < fuel) :
    ∀ c ∈ natDigitsAux fuel n, ∃ d, d < 10 ∧ c = digitChar d := by
  induction fuel generalizing n with
  | zero => omega
  | succ f ih =>
      intro c hc
      by_cases hn : n < 10
      · simp only [natDigitsAux, if_pos hn, List.mem_singleton] at hc
        exact ⟨n, hn, hc⟩
      · simp only [natDigitsAux, if_neg hn, List.mem_append, List.mem_singleton] at hc
        rcases hc with hc | hc
        · have hlt : n / 10 < n := Nat.div_lt_self (by omega) (by omega)
          exact ih (by omega) c hc
        · exact ⟨n % 10, Nat.mod_lt _ (by omega), hc⟩

lemma natDigitsAux_length {fuel n p : Nat} (hf : n < fuel) (hp : 1 ≤ p)
    (h : n < 10 ^ p) : (natDigitsAux fuel n).length ≤ p := by
  induction fuel generalizing n p with
  | zero => omega
  | succ f ih =>
      by_cases hn : n < 10
      · simp only [natDigitsAux, if_pos hn, List.length_singleton]; omega
      · have h2 : 2 ≤ p := by
          rcases Nat.lt_or_ge p 2 with hc | hc
          · have hp1 : p = 1 := by omega
            rw [hp1, pow_one] at h; omega
          · exact hc
        have hdiv : n / 10 < 10 ^ (p - 1) := by
          have hpow : 10 ^ p = 10 ^ (p - 1) * 10 := by
            rw [← pow_succ]
            congr 1
            omega
          exact (Nat.div_lt_iff_lt_mul (by omega)).2 (by omega)
        have hlt : n / 10 < n := Nat.div_lt_self (by omega) (by omega)
        have hrec := ih (n := n / 10) (p := p - 1) (by omega) (by omega) hdiv
        simp only [natDigitsAux, if_neg hn, List.length_append,
          List.length_singleton]
        omega

lemma natDecDigits_chars (n : Nat) :
    ∀ c ∈ natDecDigits n, ∃ d, d < 10 ∧ c = digitChar d :=
  natDigitsAux_chars (Nat.lt_succ_self n)

lemma natDecDigits_length {n p : Nat} (hp : 1 ≤ p) (h : n < 10 ^ p) :
    (natDecDigits n).length ≤ p :=
  natDigitsAux_length (Nat.lt_succ_self n) hp h

lemma dropWhile_append_all {p : Char → Bool} {l₁ l₂ : List Char}
    (h : ∀ c ∈ l₁, p c = true) :
    (l₁ ++ l₂).dropWhile p = l₂.dropWhile p := by
  induction l₁ with
  | nil => simp
  | cons a l ih =>
      have ha : p a = true := h a (List.mem_cons_self a l)
      simp only [List.cons_append, List.dropWhile, ha]
      exact ih fun c hc => h c (List.mem_cons_of_mem _ hc)

lemma fracDigitCount_renderQuantized (neg : Bool) (a p : Nat) :
    fracDigitCount (String.mk (renderQuantized neg a p)) ≤ p := by
  have hdig : ∀ n, ∀ c ∈ natDecDigits n, (fun c => c != '.') c = true := by
    intro n c hc
    obtain ⟨d, hd, rfl⟩ := natDecDigits_chars n c hc
    simpa using digitChar_ne_dot hd
  have hsign : ∀ c ∈ (if neg then ['-'] else []), (fun c => c != '.') c = true := by
    cases neg <;> simp
  show (((renderQuantized neg a p).dropWhile (fun c => c != '.')).drop 1).length ≤ p
  by_cases hp : p = 0
  · subst hp
    simp only [renderQuantized]
    rw [List.dropWhile_eq_nil_iff.2 ?all]
    · simp
    case all =>
      intro c hc
      rcases List.mem_append.1 hc with hc | hc
      · exact hsign c hc
      · exact hdig a c hc
  · have hp1 : 1 ≤ p := by omega
    simp only [renderQuantized, if_neg hp]
    rw [List.append_assoc, List.append_assoc, dropWhile_append_all hsign,
      dropWhile_append_all (hdig _)]
    have hfpd : (natDecDigits (a % 10 ^ p)).length ≤ p :=
      natDecDigits_length hp1 (Nat.mod_lt _ (by positivity))
    simp only [List.cons_append, List.dropWhile]
    norm_num
    omega

/-! Margin-mode management (BinanceFutures._set_isolated_margin). -/

/-- Boolean infix test on character lists, modelling the Python substring
operator used on exception messages. -/
def listIsInfixOfCh (pat : List Char) : List Char → Bool
  | [] => pat.isEmpty
  | c :: rest => pat.isPrefixOf (c :: rest) || listIsInfixOfCh pat rest

/-- Boolean substring containment: strContains hay pat decides whether pat
occurs inside hay. -/
def strContains (hay pat : String) : Bool := listIsInfixOfCh pat.data hay.data

/-- Message fragment the exchange answers when the margin type is already
ISOLATED. -/
def noNeedMsg : String := "No need to change margin type."

/-- Embedding of BinanceFutures._set_isolated_margin for a single call.
Inputs: the process-lifetime set of already-configured symbols
(self._isolated_symbols) and the exchange response that
futures_change_margin_type would give if issued.  Output: the new set, the
list of symbols for which a mode-change network call was actually issued
(empty or a singleton), and the escaping BinanceAPIException message when
the error is not the benign "no need to change" answer. -/
def set_isolated_margin (isolated : List String) (symbol : String)
    (resp : ApiResp Unit) :
    List String × List String × Option String :=
  if symbol ∈ isolated then (isolated, [], none)
  else
    match resp with
    | .ok _ => (symbol :: isolated, [symbol], none)
    | .apiErr msg =>
        if strContains msg noNeedMsg then (symbol :: isolated, [symbol], none)
        else (isolated, [symbol], some msg)

/-- Benign responses of the mode-change request: plain success, or a
BinanceAPIException whose message contains "No need to change margin
type." — exactly the two cases _set_isolated_margin absorbs. -/
def marginRespBenign : ApiResp Unit → Bool
  | .ok _ => true
  | .apiErr msg => strContains msg noNeedMsg

/-- Folding of a sequence of top-level _set_isolated_margin calls within
one process lifetime; returns the final configured-symbol set and the list
(with multiplicity) of symbols for which a mode-change network call was
issued. -/
def runMarginCalls (isolated : List String) :
    List (String × ApiResp Unit) → List String × List String
  | [] => (isolated, [])
  | (sym, resp) :: rest =>
      let r := set_isolated_margin isolated sym resp
      let rf := runMarginCalls r.1 rest
      (rf.1, r.2.1 ++ rf.2)

/-! Result envelopes and network-call traces of the trading methods. -/

/-- Value of the stop_loss_price / take_profit_price detail entries: the
key holds None, the raw input number, or the truncated decimal string once
the precision step has run. -/
inductive PriceField where
  | pyNone
  | raw (q : ℚ)
  | truncStr (s : String)
deriving DecidableEq, Repr

/-- Initial detail value for an optional price argument. -/
def initPriceField : Option ℚ → PriceField
  | none => .pyNone
  | some q => .raw q

/-- Network side effects the client can issue, recorded in order. -/
inductive NetCall where
  | changeLeverage (symbol : String) (leverage : Int)
  | changeMarginType (symbol : String)
  | createOrder (symbol side otype quantity : String) (reduceOnly : Bool)
  | createAlgoOrder (symbol side otype triggerPrice : String)
  | closePositionCall (symbol side : String)
  | cancelRelatedCall (symbol : String)
deriving DecidableEq, Repr

/-- Details dict of set_stop_loss_take_profit; an Option none field models
a key that is absent from the Python dict. -/
structure SlTpDetails where
  symbol : String
  side : String
  stop_loss_price : PriceField
  take_profit_price : PriceField
  stop_loss_set : Option Bool
  stop_loss_algoId : Option Int
  take_profit_set : Option Bool
  take_profit_algoId : Option Int
deriving DecidableEq, Repr

/-- Result envelope of set_stop_loss_take_profit. -/
structure SlTpResult where
  success : Bool
  action : String
  details : SlTpDetails
  error_message : Option String
deriving DecidableEq, Repr

/-- Exchange responses consumed by one set_stop_loss_take_profit call:
the price precision resolved for the symbol and the outcome of the two
futures_create_algo_order submissions (each an algoId or an exception). -/
structure SlTpEnv where
  price_precision : Nat
  sl_resp : ApiResp Int
  tp_resp : ApiResp Int
deriving DecidableEq, Repr

/-- Embedding of BinanceFutures.set_stop_loss_take_profit.  Python
truthiness makes a 0 price skip its leg exactly like None.  A leg failure
(BinanceAPIException) jumps to the handler, which records the message,
calls close_position and returns the envelope with success = false; the
second leg is then never attempted. -/
def set_stop_loss_take_profit (env : SlTpEnv) (symbol side : String)
    (stop_loss_price take_profit_price : Option ℚ) :
    SlTpResult × List NetCall :=
  let sym := modify_symbol_name symbol
  let action := "Set stop-loss and take-profit orders for " ++ sym ++ " "
    ++ side ++ " position"
  let details0 : SlTpDetails :=
    { symbol := sym, side := side,
      stop_loss_price := initPriceField stop_loss_price,
      take_profit_price := initPriceField take_profit_price,
      stop_loss_set := none, stop_loss_algoId := none,
      take_profit_set := none, take_profit_algoId := none }
  let ordSide := if isBuyish side then "SELL" else "BUY"
  let closeSide := if isBuyish side then "BUY" else "SELL"
  let fail : SlTpDetails → String → List NetCall → SlTpResult × List NetCall :=
    fun d msg calls =>
      ({ success := false, action := action, details := d,
         error_message := some msg },
       calls ++ [NetCall.closePositionCall sym closeSide])
  let finish : SlTpDetails → List NetCall → SlTpResult × List NetCall :=
    fun d calls =>
      ({ success := true, action := action, details := d,
         error_message := none }, calls)
  let tpStage : SlTpDetails → List NetCall → SlTpResult × List NetCall :=
    fun d calls =>
      match take_profit_price with
      | some tpp =>
          if tpp ≠ 0 then
            let pt := truncate_to_precision tpp env.price_precision
            let d2 := { d with take_profit_price := PriceField.truncStr pt }
            let calls2 := calls ++
              [NetCall.createAlgoOrder sym ordSide "TAKE_PROFIT_MARKET" pt]
            match env.tp_resp with
            | .ok algoId =>
                finish { d2 with take_profit_set := some true,
                                 take_profit_algoId := some algoId } calls2
            | .apiErr msg => fail d2 msg calls2
          else finish d calls
      | none => finish d calls
  match stop_loss_price with
  | some slp =>
      if slp ≠ 0 then
        let ps := truncate_to_precision slp env.price_precision
        let d1 := { details0 with stop_loss_price := PriceField.truncStr ps }
        let calls1 := [NetCall.createAlgoOrder sym ordSide "STOP_MARKET" ps]
        match env.sl_resp with
        | .ok algoId =>
            tpStage { d1 with stop_loss_set := some true,
                              stop_loss_algoId := some algoId } calls1
        | .apiErr msg => fail d1 msg calls1
      else tpStage details0 []
  | none => tpStage details0 []

/-- Details dict of place_market_order.  The symbol key keeps the raw
user-supplied name: the exchange-format rename happens after the dict is
built and is never written back. -/
structure PmoDetails where
  symbol : String
  position_type : String
  leverage : Int
  amount : ℚ
  stop_loss_price : PriceField
  take_profit_price : PriceField
  price : Option String
  quantity : Option String
deriving DecidableEq, Repr

/-- Result envelope of place_market_order. -/
structure PmoResult where
  success : Bool
  action : String
  details : PmoDetails
  orderId : Option Int
  error_message : Option String
deriving DecidableEq, Repr

/-- Exchange responses consumed by one place_market_order call, in call
order: price ticker, the two precisions for the symbol, leverage change,
margin-type change, the market entry order, and the two protective-order
submissions forwarded to set_stop_loss_take_profit. -/
structure PmoEnv where
  ticker_resp : ApiResp ℚ
  price_precision : Nat
  quantity_precision : Nat
  leverage_resp : ApiResp Unit
  margin_resp : ApiResp Unit
  entry_resp : ApiResp Int
  sl_resp : ApiResp Int
  tp_resp : ApiResp Int
deriving DecidableEq, Repr

/-- Embedding of BinanceFutures.place_market_order.  The outer value is
Except.error when an exception escapes the method: this happens for the
wrapped get_price failure (a plain Exception, which the except
BinanceAPIException clause cannot catch) and — decisively for claim C1 —
for the plain Exception the method itself raises when
set_stop_loss_take_profit reports failure.  BinanceAPIException failures
of the leverage, margin or entry calls are caught and become the usual
envelope with success = false.  Also returns the network-call trace and
the updated isolated-symbols set. -/
def place_market_order (env : PmoEnv) (isolated : List String)
    (symbol position_type : String) (leverage : Int) (amount : ℚ)
    (stop_loss_price take_profit_price : Option ℚ) :
    Except String PmoResult × List NetCall × List String :=
  let action := "Place market " ++ position_type ++ " order for " ++ symbol
  let d0 : PmoDetails :=
    { symbol := symbol, position_type := position_type, leverage := leverage,
      amount := amount,
      stop_loss_price := initPriceField stop_loss_price,
      take_profit_price := initPriceField take_profit_price,
      price := none, quantity := none }
  let sym := modify_symbol_name symbol
  let side := if isBuyish position_type then "BUY" else "SELL"
  match env.ticker_resp with
  | .apiErr msg =>
      (.error ("獲取 " ++ sym ++ " 價格失敗：" ++ msg), [], isolated)
  | .ok price =>
      let quantity := amount / price
      let priceStr := truncate_to_precision price env.price_precision
      let qtyStr := truncate_to_precision quantity env.quantity_precision
      let d1 := { d0 with price := some priceStr, quantity := some qtyStr }
      let levCall := [NetCall.changeLeverage sym leverage]
      match env.leverage_resp with
      | .apiErr msg =>
          (.ok { success := false, action := action, details := d1,
                 orderId := none, error_message := some msg },
           levCall, isolated)
      | .ok _ =>
          let m := set_isolated_margin isolated sym env.margin_resp
          let marginCalls := m.2.1.map NetCall.changeMarginType
          match m.2.2 with
          | some msg =>
              (.ok { success := false, action := action, details := d1,
                     orderId := none, error_message := some msg },
               levCall ++ marginCalls, m.1)
          | none =>
              let entryCall := [NetCall.createOrder sym side "MARKET" qtyStr false]
              match env.entry_resp with
              | .apiErr msg =>
                  (.ok { success := false, action := action, details := d1,
                         orderId := none, error_message := some msg },
                   levCall ++ marginCalls ++ entryCall, m.1)
              | .ok oid =>
                  let sl_tp :=
                    set_stop_loss_take_profit
                      ⟨env.price_precision, env.sl_resp, env.tp_resp⟩
                      sym side stop_loss_price take_profit_price
                  let allCalls := levCall ++ marginCalls ++ entryCall ++ sl_tp.2
                  if sl_tp.1.success then
                    let d2 :=
                      { d1 with
                        stop_loss_price :=
                          match stop_loss_price with
                          | some slp =>
                              if slp ≠ 0 then sl_tp.1.details.stop_loss_price
                              else d1.stop_loss_price
                          | none => d1.stop_loss_price,
                        take_profit_price :=
                          match take_profit_price with
                          | some tpp =>
                              if tpp ≠ 0 then sl_tp.1.details.take_profit_price
                              else d1.take_profit_price
                          | none => d1.take_profit_price }
                    (.ok { success := true, action := action, details := d2,
                           orderId := some oid, error_message := none },
                     allCalls, m.1)
                  else
                    (.error ("⚠️ " ++ sym ++ " " ++ position_type
                        ++ " 止盈止損設置失敗: "
                        ++ (sl_tp.1.error_message.getD "Unknown error")
                        ++ " 請確認是否需要手動平倉。"),
                     allCalls, m.1)

/-! Position reconciliation: close_position and clean_orphan_orders. -/

/-- One entry of the futures_position_information response: the symbol and
the signed position amount.  A zero amount is a flat entry; get_positions
keeps such entries (it merely tags them side = "NONE"). -/
structure PosEntry where
  symbol : String
  positionAmt : ℚ
deriving DecidableEq, Repr

/-- Embedding of get_positions(symbol=...): filter the exchange-wide
position list by the exchange-format symbol name.  The side tag it adds is
derivable from the sign of positionAmt and is not modelled. -/
def get_positions_model (positions : List PosEntry) (symbol : String) :
    List PosEntry :=
  positions.filter (fun p => p.symbol == modify_symbol_name symbol)

/-- Skip test of close_position: a requested position_type that does not
match the live side means nothing to do. -/
def closeSkip (position_type : Option String) (current_side : String) : Bool :=
  match position_type with
  | none => false
  | some pt0 =>
      let pt := pt0.trim.toUpper
      if (pt == "LONG" || pt == "BUY") && current_side != "BUY" then true
      else if (pt == "SHORT" || pt == "SELL") && current_side != "SELL" then true
      else false

/-- Flatness test close_position applies to the re-read position list:
empty, or first entry with zero amount. -/
def flatHead : List PosEntry → Bool
  | [] => true
  | p :: _ => p.positionAmt == 0

/-- Result envelope of close_position (details flattened into fields; an
Option none models an absent dict key). -/
structure CloseResult where
  success : Bool
  action : String
  symbol : String
  position_type : Option String
  position_found : Option Bool
  orders_cancelled : Option Bool
  orderId : Option Int
  error_message : Option String
deriving DecidableEq, Repr

/-- Exchange state and responses consumed by one close_position call, in
call order: the position list at the first read, the quantity precision,
the reduce-only market order response, the position list at the re-read,
and the outcome of the protective-order cancellation pass. -/
structure ClosePosEnv where
  positions1 : List PosEntry
  qty_precision : Nat
  create_resp : ApiResp Int
  positions2 : List PosEntry
  cancel_resp : ApiResp Unit
deriving DecidableEq, Repr

/-- Embedding of BinanceFutures.close_position.  Submits a reduce-only
market order for the full truncated quantity when a matching nonzero
position exists, then re-reads the position and cancels the protective
orders only when the re-read confirms flatness. -/
def close_position (env : ClosePosEnv) (symbol : String)
    (position_type : Option String) : CloseResult × List NetCall :=
  let action := "Close " ++ position_type.getD "any" ++ " position for "
    ++ symbol
  let base : CloseResult :=
    { success := false, action := action, symbol := symbol,
      position_type := position_type, position_found := none,
      orders_cancelled := none, orderId := none, error_message := none }
  let noPos : CloseResult × List NetCall :=
    ({ base with success := true, position_found := some false }, [])
  let sym := modify_symbol_name symbol
  match get_positions_model env.positions1 sym with
  | [] => noPos
  | pos :: _ =>
      if pos.positionAmt = 0 then noPos
      else
        let current_side := if pos.positionAmt > 0 then "BUY" else "SELL"
        if closeSkip position_type current_side then noPos
        else
          let qty := truncate_to_precision |pos.positionAmt| env.qty_precision
          let side := if pos.positionAmt > 0 then "SELL" else "BUY"
          let submitCall := [NetCall.createOrder sym side "MARKET" qty true]
          match env.create_resp with
          | .apiErr msg => ({ base with error_message := some msg }, submitCall)
          | .ok oid =>
              let r1 := { base with orderId := some oid }
              if flatHead (get_positions_model env.positions2 sym) then
                match env.cancel_resp with
                | .ok _ =>
                    ({ r1 with success := true, orders_cancelled := some true },
                     submitCall ++ [NetCall.cancelRelatedCall sym])
                | .apiErr msg =>
                    ({ r1 with error_message := some msg },
                     submitCall ++ [NetCall.cancelRelatedCall sym])
              else
                ({ r1 with success := true, orders_cancelled := some false },
                 submitCall)

/-- Test for a reduce-only market submission in a network trace. -/
def closeSubmitted (calls : List NetCall) : Bool :=
  calls.any fun c =>
    match c with
    | NetCall.createOrder _ _ _ _ _ => true
    | _ => false

/-- Test for a protective-order cancellation pass in a network trace. -/
def cancelCalled (calls : List NetCall) : Bool :=
  calls.any fun c =>
    match c with
    | NetCall.cancelRelatedCall _ => true
    | _ => false

/-- One open order as the reconciliation sweep sees it: plain orders carry
the "type" key, conditional (algo) orders the "orderType" key. -/
structure POrder where
  symbol : String
  type : Option String
  orderType : Option String
  orderId : Int
deriving DecidableEq, Repr

/-- The CLOSING_ORDER_TYPES set of src/futures/binance_api.py. -/
def CLOSING_ORDER_TYPES : List String :=
  ["STOP", "STOP_MARKET", "TAKE_PROFIT", "TAKE_PROFIT_MARKET",
   "TRAILING_STOP_MARKET"]

/-- Python x or y on optional strings: the first operand unless it is
falsy (None or empty). -/
def pyOrStr (a b : Option String) : Option String :=
  match a with
  | some s => if s ≠ "" then some s else b
  | none => b

/-- Membership of an optional order-type string in CLOSING_ORDER_TYPES
(None is never a member). -/
def optInClosing : Option String → Bool
  | some t => CLOSING_ORDER_TYPES.contains t
  | none => false

/-- Filter of the sweep loop: od_type = order.get("type") or
order.get("orderType") must be a protective type. -/
def isClosingOrderTrigger (o : POrder) : Bool :=
  optInClosing (pyOrStr o.type o.orderType)

/-- Cancellation test of _cancel_related_orders: the "type" key holds a
protective type (plain order), or else the "orderType" key does
(conditional order). -/
def cancelRelatedCrit (o : POrder) : Bool :=
  optInClosing o.type || optInClosing o.orderType

/-- Embedding of _cancel_related_orders: the protective orders of the
given symbol that the pass cancels, out of the open-order book. -/
def cancel_related_orders (book : List POrder) (symbol : String) :
    List POrder :=
  (book.filter (fun o => o.symbol == modify_symbol_name symbol)).filter
    cancelRelatedCrit

/-- Loop of clean_orphan_orders over the open-order snapshot; cleaned
accumulates the symbols already processed.  Returns the final cleaned
set, the cancelled orders, and the symbols processed during this run in
processing order. -/
def cleanLoop (positions : List PosEntry) (book : List POrder) :
    List POrder → List String → List String × List POrder × List String
  | [], cleaned => (cleaned, [], [])
  | o :: rest, cleaned =>
      if isClosingOrderTrigger o = false then
        cleanLoop positions book rest cleaned
      else if o.symbol ∈ cleaned then
        cleanLoop positions book rest cleaned
      else
        let cancelNow :=
          if get_positions_model positions o.symbol = [] then
            cancel_related_orders book o.symbol
          else []
        let rec0 := cleanLoop positions book rest (o.symbol :: cleaned)
        (rec0.1, cancelNow ++ rec0.2.1, o.symbol :: rec0.2.2)

/-- Embedding of BinanceFutures.clean_orphan_orders: sweep the exchange
wide open-order book against the position list.  Returns (cleaned_symbols,
cancelled orders, processed symbols in order). -/
def clean_orphan_orders (book : List POrder) (positions : List PosEntry) :
    List String × List POrder × List String :=
  cleanLoop positions book book []

lemma mem_cancel_related (book : List POrder) (s : String) (o : POrder) :
    o ∈ cancel_related_orders book s ↔
      o ∈ book ∧ o.symbol = modify_symbol_name s ∧
        cancelRelatedCrit o = true := by
  simp only [cancel_related_orders, List.mem_filter, beq_iff_eq, and_assoc]

lemma cleanLoop_cancelled_iff (positions : List PosEntry)
    (book : List POrder) (rest : List POrder) (cleaned : List String)
    (o : POrder) :
    o ∈ (cleanLoop positions book rest cleaned).2.1 ↔
      ∃ t ∈ rest, isClosingOrderTrigger t = true ∧ t.symbol ∉ cleaned ∧
        get_positions_model positions t.symbol = [] ∧
        o ∈ cancel_related_orders book t.symbol := by
  induction rest generalizing cleaned with
  | nil => simp [cleanLoop]
  | cons h rest ih =>
      cases htrig : isClosingOrderTrigger h with
      | false =>
          rw [show cleanLoop positions book (h :: rest) cleaned
              = cleanLoop positions book rest cleaned by
            simp [cleanLoop, htrig]]
          rw [ih]
          constructor
          · rintro ⟨t, ht, hP⟩
            exact ⟨t, List.mem_cons_of_mem _ ht, hP⟩
          · rintro ⟨t, ht, htr, hP⟩
            rcases List.mem_cons.1 ht with rfl | ht
            · rw [htrig] at htr; exact absurd htr (by simp)
            · exact ⟨t, ht, htr, hP⟩
      | true =>
          by_cases hmem : h.symbol ∈ cleaned
          · rw [show cleanLoop positions book (h :: rest) cleaned
                = cleanLoop positions book rest cleaned by
              simp [cleanLoop, htrig, hmem]]
            rw [ih]
            constructor
            · rintro ⟨t, ht, hP⟩
              exact ⟨t, List.mem_cons_of_mem _ ht, hP⟩
            · rintro ⟨t, ht, htr, hnm, hP⟩
              rcases List.mem_cons.1 ht with rfl | ht
              · exact absurd hmem hnm
              · exact ⟨t, ht, htr, hnm, hP⟩
          · have hstep : (cleanLoop positions book (h :: rest) cleaned).2.1 =
                (if get_positions_model positions h.symbol = [] then
                  cancel_related_orders book h.symbol
                 else []) ++
                (cleanLoop positions book rest (h.symbol :: cleaned)).2.1 := by
              simp [cleanLoop, htrig, hmem]
            rw [hstep]
            by_cases hpos : get_positions_model positions h.symbol = []
            · rw [if_pos hpos]
              simp only [List.mem_append, ih]
              constructor
              · rintro (hc | ⟨t, ht, htr, hnm, hP⟩)
                · exact ⟨h, List.mem_cons_self _ _, htrig, hmem, hpos, hc⟩
                · refine ⟨t, List.mem_cons_of_mem _ ht, htr, ?_, hP⟩
                  intro hin
                  exact hnm (List.mem_cons_of_mem _ hin)
              · rintro ⟨t, ht, htr, hnm, hposT, hc⟩
                rcases List.mem_cons.1 ht with rfl | ht
                · exact Or.inl hc
                · by_cases hsym : t.symbol = h.symbol
                  · rw [hsym] at hc
                    exact Or.inl hc
                  · refine Or.inr ⟨t, ht, htr, ?_, hposT, hc⟩
                    simp [List.mem_cons, hsym, hnm]
            · rw [if_neg hpos]
              simp only [List.nil_append, ih]
              constructor
              · rintro ⟨t, ht, htr, hnm, hposT, hc⟩
                refine ⟨t, List.mem_cons_of_mem _ ht, htr, ?_, hposT, hc⟩
                intro hin
                exact hnm (List.mem_cons_of_mem _ hin)
              · rintro ⟨t, ht, htr, hnm, hposT, hc⟩
                rcases List.mem_cons.1 ht with rfl | ht
                · exact absurd hposT hpos
                · by_cases hsym : t.symbol = h.symbol
                  · rw [hsym] at hposT
                    exact absurd hposT hpos
                  · exact ⟨t, ht, htr, by simp [List.mem_cons, hsym, hnm], hposT, hc⟩

lemma cleanLoop_processed (positions : List PosEntry) (book : List POrder)
    (rest : List POrder) (cleaned : List String) :
    (∀ s ∈ (cleanLoop positions book rest cleaned).2.2, s ∉ cleaned) ∧
    (cleanLoop positions book rest cleaned).2.2.Nodup := by
  induction rest generalizing cleaned with
  | nil => simp [cleanLoop]
  | cons h rest ih =>
      cases htrig : isClosingOrderTrigger h with
      | false => simpa [cleanLoop, htrig] using ih cleaned
      | true =>
          by_cases hmem : h.symbol ∈ cleaned
          · simpa [cleanLoop, htrig, hmem] using ih cleaned
          · have IH := ih (h.symbol :: cleaned)
            have hstep : (cleanLoop positions book (h :: rest) cleaned).2.2 =
                h.symbol :: (cleanLoop positions book rest
                  (h.symbol :: cleaned)).2.2 := by
              simp [cleanLoop, htrig, hmem]
            rw [hstep]
            constructor
            · intro s hs
              rcases List.mem_cons.1 hs with rfl | hs
              · exact hmem
              · have := IH.1 s hs
                intro hc
                exact this (List.mem_cons_of_mem _ hc)
            · refine List.nodup_cons.2 ⟨?_, IH.2⟩
              intro hc
              exact IH.1 _ hc (List.mem_cons_self _ _)

/-- Claim C8 (amended): in every sweep of clean_orphan_orders, only
protective-order types are cancelled (plain LIMIT/MARKET orders are never
touched), each symbol is processed at most once even with multiple stale
orders, and protective orders are cancelled exactly for those symbols for
which the exchange position list has no entry at all — a flat zero-amount
position entry counts as a position and blocks the cancellation (see the
counterexample). -/
theorem clean_orphan_orders_spec (book : List POrder)
    (positions : List PosEntry) :
    (∀ o ∈ (clean_orphan_orders book positions).2.1,
        cancelRelatedCrit o = true) ∧
    (clean_orphan_orders book positions).2.2.Nodup ∧
    (∀ o, o ∈ (clean_orphan_orders book positions).2.1 ↔
      (o ∈ book ∧ cancelRelatedCrit o = true ∧
        ∃ t ∈ book, isClosingOrderTrigger t = true ∧
          get_positions_model positions t.symbol = [] ∧
          o.symbol = modify_symbol_name t.symbol)) := by
  have hiff : ∀ o, o ∈ (clean_orphan_orders book positions).2.1 ↔
      ∃ t ∈ book, isClosingOrderTrigger t = true ∧
        get_positions_model positions t.symbol = [] ∧
        o ∈ cancel_related_orders book t.symbol := by
    intro o
    rw [clean_orphan_orders, cleanLoop_cancelled_iff]
    constructor
    · rintro ⟨t, ht, htr, _, hpos, hc⟩
      exact ⟨t, ht, htr, hpos, hc⟩
    · rintro ⟨t, ht, htr, hpos, hc⟩
      exact ⟨t, ht, htr, by simp, hpos, hc⟩
  refine ⟨?_, ?_, ?_⟩
  · intro o ho
    obtain ⟨t, _, _, _, hc⟩ := (hiff o).1 ho
    exact ((mem_cancel_related book t.symbol o).1 hc).2.2
  · exact (cleanLoop_processed positions book book []).2
  · intro o
    rw [hiff]
    constructor
    · rintro ⟨t, ht, htr, hpos, hc⟩
      obtain ⟨hbk, hsym, hcrit⟩ := (mem_cancel_related book t.symbol o).1 hc
      exact ⟨hbk, hcrit, t, ht, htr, hpos, hsym⟩
    · rintro ⟨hbk, hcrit, t, ht, htr, hpos, hsym⟩
      exact ⟨t, ht, htr, hpos,
        (mem_cancel_related book t.symbol o).2 ⟨hbk, hsym, hcrit⟩⟩

/-- Claim C8 counterexample: a STOP_MARKET order on a symbol whose only
position entry is flat (amount 0).  There is no open position, yet the
sweep cancels nothing, because the code tests emptiness of the position
list rather than flatness. -/
theorem clean_orphan_flat_entry_blocks :
    (clean_orphan_orders [⟨"SYM1", some "STOP_MARKET", none, 1⟩]
      [⟨"SYM1", 0⟩]).2.1 = [] ∧
    (∀ p ∈ [(⟨"SYM1", 0⟩ : PosEntry)], p.positionAmt = 0) := by
  constructor
  · with_unfolding_all rfl
  · intro p hp
    simp at hp
    rw [hp]

/-- Claim C9: in every close_position execution that submits a reduce-only
close order and whose submission is accepted — so the position is then
re-read — with the re-read returning at most one entry for the symbol (as
in Binance one-way position mode), the submitted order is reduce-only and
the protective-order cancellation pass runs if and only if the re-read
position is flat; it never runs while a nonzero position entry remains. -/
theorem close_position_cancel_iff_flat (env : ClosePosEnv) (symbol : String)
    (position_type : Option String) (oid : Int)
    (hcrok : env.create_resp = ApiResp.ok oid)
    (hone : (get_positions_model env.positions2
      (modify_symbol_name symbol)).length ≤ 1)
    (hsub : closeSubmitted (close_position env symbol position_type).2
      = true) :
    (∀ c ∈ (close_position env symbol position_type).2,
        ∀ s sd t q ro, c = NetCall.createOrder s sd t q ro → ro = true) ∧
    (cancelCalled (close_position env symbol position_type).2 = true ↔
      ∀ p ∈ get_positions_model env.positions2 (modify_symbol_name symbol),
        p.positionAmt = 0) := by
  have hflat : flatHead (get_positions_model env.positions2
      (modify_symbol_name symbol)) = true ↔
      (∀ p ∈ get_positions_model env.positions2 (modify_symbol_name symbol),
        p.positionAmt = 0) := by
    cases hcase : get_positions_model env.positions2
        (modify_symbol_name symbol) with
    | nil => simp [flatHead]
    | cons p rest =>
        rw [hcase] at hone
        simp only [List.length_cons] at hone
        have hr : rest = [] := List.eq_nil_of_length_eq_zero (by omega)
        subst hr
        simp [flatHead]
  rcases hp1 : get_positions_model env.positions1 (modify_symbol_name symbol)
    with _ | ⟨pos, rest1⟩
  · rw [close_position] at hsub
    rw [hp1] at hsub
    simp [closeSubmitted] at hsub
  · by_cases hz : pos.positionAmt = 0
    · rw [close_position] at hsub
      rw [hp1] at hsub
      simp [closeSubmitted, hz] at hsub
    · by_cases hskip : closeSkip position_type
          (if pos.positionAmt > 0 then "BUY" else "SELL") = true
      · rw [close_position] at hsub
        rw [hp1] at hsub
        simp [closeSubmitted, hz, hskip] at hsub
      · have hskip2 : closeSkip position_type
            (if pos.positionAmt > 0 then "BUY" else "SELL") = false := by
          simpa using hskip
        · by_cases hfl : flatHead (get_positions_model env.positions2
              (modify_symbol_name symbol)) = true
          · have hcalls : (close_position env symbol position_type).2 =
                [NetCall.createOrder (modify_symbol_name symbol)
                  (if pos.positionAmt > 0 then "SELL" else "BUY") "MARKET"
                  (truncate_to_precision |pos.positionAmt|
                    env.qty_precision) true,
                 NetCall.cancelRelatedCall (modify_symbol_name symbol)] := by
              rw [close_position, hp1]
              rcases hcc : env.cancel_resp with u | m <;>
                simp [hz, hskip2, hcrok, hfl, hcc]
            rw [hcalls]
            constructor
            · intro c hc s sd t q ro hceq
              rcases List.mem_cons.1 hc with rfl | hc
              · cases hceq
                rfl
              · simp at hc
                rw [hc] at hceq
                cases hceq
            · refine iff_of_true ?_ (hflat.1 hfl)
              simp [cancelCalled]
          · have hfl2 : flatHead (get_positions_model env.positions2
                (modify_symbol_name symbol)) = false := by simpa using hfl
            have hcalls : (close_position env symbol position_type).2 =
                [NetCall.createOrder (modify_symbol_name symbol)
                  (if pos.positionAmt > 0 then "SELL" else "BUY") "MARKET"
                  (truncate_to_precision |pos.positionAmt|
                    env.qty_precision) true] := by
              rw [close_position, hp1]
              simp [hz, hskip2, hcrok, hfl2]
            rw [hcalls]
            constructor
            · intro c hc s sd t q ro hceq
              simp at hc
              rw [hc] at hceq
              cases hceq
              rfl
            · simp only [cancelCalled, List.any_cons, List.any_nil]
              constructor
              · intro hcon
                simp at hcon
              · intro hall
                exact absurd (hflat.2 hall) (by simp [hfl2])

/-- Claim C9 witness: a long position of 5, an accepted reduce-only
close, and an empty re-read; the cancellation pass runs and the iff
holds. -/
theorem close_position_cancel_iff_flat_witness :
    (get_positions_model ([] : List PosEntry)
      (modify_symbol_name "BTCUSDT")).length ≤ 1 ∧
    closeSubmitted (close_position
      ⟨[⟨"BTCUSDT", 5⟩], 3, .ok 9, [], .ok ()⟩ "BTCUSDT" none).2 = true ∧
    (cancelCalled (close_position
        ⟨[⟨"BTCUSDT", 5⟩], 3, .ok 9, [], .ok ()⟩ "BTCUSDT" none).2 = true ↔
      ∀ p ∈ get_positions_model ([] : List PosEntry)
        (modify_symbol_name "BTCUSDT"), p.positionAmt = 0) :=
  ⟨by with_unfolding_all decide, by with_unfolding_all decide,
   (close_position_cancel_iff_flat
      ⟨[⟨"BTCUSDT", 5⟩], 3, .ok 9, [], .ok ()⟩ "BTCUSDT" none 9 rfl
      (by with_unfolding_all decide) (by with_unfolding_all decide)).2⟩

/-! Historical data retrieval (BinanceFutures.get_historical_data).

A Python kline row is a 12-element list of which get_historical_data only
inspects index 0 (open time) and index 6 (close time); a row is therefore
embedded as those two fields.  The paginated exchange is an oracle mapping
a request (startTime, limit) to the page _get_historical_klines_with_rate_limit
eventually returns after its internal rate-limit retries.  The forward
(since) loop has no termination measure against an arbitrary oracle, so it
carries explicit fuel; exhausting it yields a model-level error that no
claim relies on.  The backward loop consumes its own sufficient fuel
internally. -/

/-- One kline bar: open time and close time in milliseconds. -/
structure Kline where
  openTime : Int
  closeTime : Int
deriving DecidableEq, Repr

/-- Python truthiness of an optional int (None and 0 are falsy). -/
def truthyOptNat : Option Nat → Bool
  | some n => n != 0
  | none => false

/-- Python truthiness of an optional timestamp (None and 0 are falsy). -/
def truthyOptInt : Option Int → Bool
  | some t => t != 0
  | none => false

/-- Forward (since) paging loop of get_historical_data: fetch from the
cursor, stop on an empty page, truncate and stop once limit bars are
accumulated, stop on a short page, else advance the cursor to one
millisecond past the last bar. -/
def forwardLoop (oracle : Option Int → Nat → List Kline)
    (limit : Option Nat) (fetch_limit : Nat) :
    Nat → Int → List Kline → List (Option Int × Nat) →
    Except String (List Kline × List (Option Int × Nat))
  | 0, _, _, _ => .error "model: fuel exhausted"
  | fuel + 1, start_time, acc, reqs =>
      let reqs2 := reqs ++ [(some start_time, fetch_limit)]
      match oracle (some start_time) fetch_limit with
      | [] => .ok (acc, reqs2)
      | k0 :: krest =>
          let acc2 := acc ++ (k0 :: krest)
          if truthyOptNat limit = true ∧ limit.getD 0 ≤ acc2.length then
            .ok (acc2.take (limit.getD 0), reqs2)
          else if (k0 :: krest).length < fetch_limit then
            .ok (acc2, reqs2)
          else
            forwardLoop oracle limit fetch_limit fuel
              ((krest.getLastD k0).openTime + 1) acc2 reqs2

/-- Backward paging loop of get_historical_data: page backward from now
(or from the extrapolated timestamp before the oldest bar), prepending
pages and failing on any duplicate open timestamp among the accumulated
bars.  Reading all_klines[1] with fewer than two accumulated bars is the
IndexError the Python code would hit. -/
def backwardLoop (oracle : Option Int → Nat → List Kline)
    (sym interval : String) (L : Nat) :
    Nat → Nat → List Kline → List (Option Int × Nat) →
    Except String (List Kline × List (Option Int × Nat))
  | 0, _, _, _ => .error "model: fuel exhausted"
  | fuel + 1, remaining, acc, reqs =>
      if remaining = 0 then .ok (acc, reqs)
      else
        let fetch_limit := min 1000 remaining
        let startArg : Except String (Option Int) :=
          match acc with
          | [] => .ok none
          | [_] => .error "IndexError: list index out of range"
          | a0 :: a1 :: _ =>
              .ok (some (a0.openTime - (a1.openTime - a0.openTime)
                * fetch_limit))
        match startArg with
        | .error e => .error e
        | .ok start =>
            let reqs2 := reqs ++ [(start, fetch_limit)]
            match oracle start fetch_limit with
            | [] => .ok (acc, reqs2)
            | k0 :: krest =>
                let acc2 := (k0 :: krest) ++ acc
                if (acc2.map Kline.openTime).dedup.length ≠ acc2.length then
                  .error ("Duplicate timestamp found in fetched klines for "
                    ++ sym ++ " with interval " ++ interval ++ ", limit "
                    ++ toString L)
                else
                  backwardLoop oracle sym interval L fuel
                    (remaining - fetch_limit) acc2 reqs2

/-- Embedding of BinanceFutures.get_historical_data.  Returns the bar list
and the (startTime, limit) page requests issued, or the message of the
escaping exception.  Passing limit=None without since reaches the Python
comparison None > 0, a TypeError.  Note the two separate limit increments
for closed=True in the backward path: limit += 1 at the top (closed and
not since and limit) and again limit += 1 just below (closed and limit). -/
def get_historical_data (oracle : Option Int → Nat → List Kline)
    (symbol interval : String) (tradable : Bool) (limit : Option Nat)
    (closed : Bool) (since : Option Int) (now_ms : Int) (fuel : Nat) :
    Except String (List Kline × List (Option Int × Nat)) :=
  let sym := modify_symbol_name symbol
  if tradable = false then .error (sym ++ " 不是有效的永續合約")
  else
    let limit1 :=
      if closed && !truthyOptInt since && truthyOptNat limit then
        limit.map (· + 1)
      else limit
    if truthyOptInt since then
      let fetch_limit := match limit1 with
        | none => 1000
        | some l => min 1000 l
      match forwardLoop oracle limit1 fetch_limit fuel (since.getD 0) [] [] with
      | .error e => .error e
      | .ok (acc, reqs) =>
          if closed ∧ acc ≠ [] ∧ now_ms < (acc.getLastD ⟨0, 0⟩).closeTime then
            .ok (acc.dropLast, reqs)
          else .ok (acc, reqs)
    else
      match (if closed && truthyOptNat limit1 then limit1.map (· + 1)
             else limit1) with
      | none => .error "TypeError: NoneType comparison"
      | some L =>
          match backwardLoop oracle sym interval L (L + 1) L [] [] with
          | .error e => .error e
          | .ok (acc, reqs) =>
              if acc = [] ∨ (L ≠ 0 ∧ acc.length < L) then
                .error ("獲取 " ++ sym ++ " 歷史數據失敗，數據不足："
                  ++ toString acc.length ++ " < " ++ toString L)
              else
                .ok ((if closed then acc.dropLast else acc), reqs)

lemma nodup_of_dedup_length_eq {α : Type} [DecidableEq α] {l : List α}
    (h : l.dedup.length = l.length) : l.Nodup := by
  have hsub : l.dedup.Sublist l := List.dedup_sublist l
  have he : l.dedup = l := hsub.eq_of_length h
  rw [← he]
  exact List.nodup_dedup l

lemma backwardLoop_nodup (oracle : Option Int → Nat → List Kline)
    (sym interval : String) (L : Nat) :
    ∀ (fuel remaining : Nat) (acc : List Kline)
      (reqs : List (Option Int × Nat)) (out : List Kline)
      (reqs2 : List (Option Int × Nat)),
      (acc.map Kline.openTime).Nodup →
      backwardLoop oracle sym interval L fuel remaining acc reqs =
        .ok (out, reqs2) →
      (out.map Kline.openTime).Nodup := by
  intro fuel
  induction fuel with
  | zero =>
      intro remaining acc reqs out reqs2 hnd h
      simp [backwardLoop] at h
  | succ f ih =>
      intro remaining acc reqs out reqs2 hnd h
      rw [backwardLoop] at h
      by_cases hr : remaining = 0
      · rw [if_pos hr] at h
        obtain ⟨rfl, rfl⟩ : acc = out ∧ reqs = reqs2 := by
          simpa using h
        exact hnd
      · rw [if_neg hr] at h
        rcases acc with _ | ⟨a0, _ | ⟨a1, arest⟩⟩
        · dsimp only at h
          rcases hpage : oracle none (min 1000 remaining) with _ | ⟨k0, krest⟩ <;>
            rw [hpage] at h <;> dsimp only at h
          · obtain ⟨rfl, rfl⟩ : ([] : List Kline) = out ∧
                reqs ++ [(none, min 1000 remaining)] = reqs2 := by simpa using h
            exact hnd
          · by_cases hdup : (((k0 :: krest) ++ ([] : List Kline)).map
                Kline.openTime).dedup.length =
                ((k0 :: krest) ++ ([] : List Kline)).length
            · rw [if_neg (by omega)] at h
              exact ih _ _ _ _ _ (nodup_of_dedup_length_eq
                (by simpa [List.length_map] using hdup)) h
            · rw [if_pos (by omega)] at h
              simp at h
        · simp at h
        · dsimp only at h
          rcases hpage : oracle
              (some (a0.openTime - (a1.openTime - a0.openTime)
                * (min 1000 remaining : Nat)))
              (min 1000 remaining) with _ | ⟨k0, krest⟩ <;>
            rw [hpage] at h <;> dsimp only at h
          · obtain ⟨rfl, rfl⟩ : a0 :: a1 :: arest = out ∧ _ = reqs2 := by
              simpa using h
            exact hnd
          · by_cases hdup : (((k0 :: krest) ++ (a0 :: a1 :: arest)).map
                Kline.openTime).dedup.length =
                ((k0 :: krest) ++ (a0 :: a1 :: arest)).length
            · rw [if_neg (by omega)] at h
              exact ih _ _ _ _ _ (nodup_of_dedup_length_eq
                (by simpa [List.length_map] using hdup)) h
            · rw [if_pos (by omega)] at h
              simp at h

/-- Claim C4 (amended): in count-bounded backward mode (falsy since) the
returned kline series always has pairwise-distinct open timestamps,
because a duplicate among the accumulated bars raises an exception; in the
since (forward) mode no duplicate check is performed at all and a series
with duplicate timestamps is returned silently (see the
counterexample). -/
theorem get_historical_data_backward_nodup
    (oracle : Option Int → Nat → List Kline) (symbol interval : String)
    (tradable : Bool) (limit : Option Nat) (closed : Bool)
    (since : Option Int) (now_ms : Int) (fuel : Nat)
    (out : List Kline) (reqs : List (Option Int × Nat))
    (hsince : truthyOptInt since = false)
    (hok : get_historical_data oracle symbol interval tradable limit closed
      since now_ms fuel = .ok (out, reqs)) :
    (out.map Kline.openTime).Nodup := by
  rw [get_historical_data] at hok
  by_cases ht : tradable = false
  · rw [if_pos ht] at hok
    simp at hok
  · rw [if_neg ht] at hok
    rw [if_neg (by simp [hsince])] at hok
    rcases hL : (if closed && truthyOptNat (if closed && !truthyOptInt since
        && truthyOptNat limit then limit.map (· + 1) else limit) then
        (if closed && !truthyOptInt since && truthyOptNat limit then
          limit.map (· + 1) else limit).map (· + 1)
      else (if closed && !truthyOptInt since && truthyOptNat limit then
          limit.map (· + 1) else limit)) with _ | L
    · rw [hL] at hok
      simp at hok
    · rw [hL] at hok
      dsimp only at hok
      rcases hbl : backwardLoop oracle (modify_symbol_name symbol) interval L
          (L + 1) L [] [] with e | ⟨acc, reqs0⟩ <;> rw [hbl] at hok <;>
        dsimp only at hok
      · simp at hok
      · have hacc : (acc.map Kline.openTime).Nodup :=
          backwardLoop_nodup oracle _ interval L (L + 1) L [] [] acc reqs0
            (by simp) hbl
        by_cases hins : acc = [] ∨ (L ≠ 0 ∧ acc.length < L)
        · rw [if_pos hins] at hok
          simp at hok
        · rw [if_neg hins] at hok
          obtain ⟨rfl, rfl⟩ : (if closed then acc.dropLast else acc) = out ∧
              reqs0 = reqs := by simpa using hok
          by_cases hc : closed
          · rw [if_pos hc]
            have hsub : (acc.dropLast.map Kline.openTime).Sublist
                (acc.map Kline.openTime) :=
              (List.dropLast_sublist acc).map Kline.openTime
            exact hacc.sublist hsub
          · rw [if_neg hc]
            exact hacc

/-- Oracle answering every page request with the same two distinct bars. -/
def twoBarOracle : Option Int → Nat → List Kline :=
  fun _ _ => [⟨100, 199⟩, ⟨200, 299⟩]

/-- Claim C4 witness: a concrete backward-mode fetch succeeds and its
series has pairwise-distinct open timestamps. -/
theorem get_historical_data_backward_nodup_witness :
    truthyOptInt (none : Option Int) = false ∧
    (([⟨100, 199⟩, ⟨200, 299⟩] : List Kline).map Kline.openTime).Nodup :=
  ⟨rfl,
   get_historical_data_backward_nodup twoBarOracle "BTCUSDT" "1h" true
     (some 2) false none 0 0 [⟨100, 199⟩, ⟨200, 299⟩] [(none, 2)] rfl
     (by with_unfolding_all rfl)⟩

/-- Oracle whose page repeats one bar twice: a pagination bug the spec
says must be fatal. -/
def dupOracle : Option Int → Nat → List Kline :=
  fun _ _ => [⟨100, 199⟩, ⟨100, 199⟩]

/-- Claim C4 counterexample: in the since (forward) retrieval mode a page
with a duplicated open timestamp is returned as-is — no exception, and the
returned series has a duplicate timestamp, refuting the claim for that
mode. -/
theorem get_historical_data_forward_dup :
    get_historical_data dupOracle "BTCUSDT" "1h" true none false (some 1)
      0 5 =
      .ok ([⟨100, 199⟩, ⟨100, 199⟩], [(some 1, 1000)]) ∧
    ¬ (([⟨100, 199⟩, ⟨100, 199⟩] : List Kline).map Kline.openTime).Nodup :=
  ⟨by with_unfolding_all rfl, by decide⟩

/-- Claim C6 (amended): in count-bounded backward mode a successful fetch
never returns fewer bars than requested — the insufficient-data exception
is raised instead; in the since (forward) mode no such check exists and a
shorter-than-requested series is returned without error (see the
counterexample). -/
theorem get_historical_data_not_short
    (oracle : Option Int → Nat → List Kline) (symbol interval : String)
    (tradable : Bool) (l : Nat) (closed : Bool) (since : Option Int)
    (now_ms : Int) (fuel : Nat) (out : List Kline)
    (reqs : List (Option Int × Nat))
    (hsince : truthyOptInt since = false)
    (hok : get_historical_data oracle symbol interval tradable (some l)
      closed since now_ms fuel = .ok (out, reqs)) :
    l ≤ out.length := by
  rw [get_historical_data] at hok
  by_cases ht : tradable = false
  · rw [if_pos ht] at hok
    simp at hok
  · rw [if_neg ht] at hok
    rw [if_neg (by simp [hsince])] at hok
    by_cases hl : l = 0
    · subst hl
      omega
    · have h1 : (if closed && !truthyOptInt since
          && truthyOptNat (some l) then (some l).map (· + 1)
          else some l) = some (if closed then l + 1 else l) := by
        cases closed <;> simp [hsince, truthyOptNat, hl]
      rw [h1] at hok
      have h2 : (if closed && truthyOptNat (some (if closed then l + 1
          else l)) then (some (if closed then l + 1 else l)).map (· + 1)
          else some (if closed then l + 1 else l)) =
          some (if closed then l + 2 else l) := by
        cases closed <;> simp [truthyOptNat, hl]
      rw [h2] at hok
      dsimp only at hok
      rcases hbl : backwardLoop oracle (modify_symbol_name symbol) interval
          (if closed then l + 2 else l) ((if closed then l + 2 else l) + 1)
          (if closed then l + 2 else l) [] [] with e | ⟨acc, reqs0⟩ <;>
        rw [hbl] at hok <;> dsimp only at hok
      · simp at hok
      · by_cases hins : acc = [] ∨ ((if closed then l + 2 else l) ≠ 0 ∧
            acc.length < (if closed then l + 2 else l))
        · rw [if_pos hins] at hok
          simp at hok
        · rw [if_neg hins] at hok
          obtain ⟨rfl, rfl⟩ : (if closed then acc.dropLast else acc) = out ∧
              reqs0 = reqs := by simpa using hok
          push_neg at hins
          obtain ⟨hne, hlen⟩ := hins
          by_cases hc : closed
          · have hLen := hlen (by simp [hc, hl])
            rw [if_pos hc] at hLen ⊢
            rw [List.length_dropLast]
            omega
          · have hLen := hlen (by simp [hc, hl])
            rw [if_neg hc] at hLen ⊢
            omega

/-- Claim C6 witness: a concrete backward-mode fetch for 2 bars returns a
series of length at least 2. -/
theorem get_historical_data_not_short_witness :
    truthyOptInt (none : Option Int) = false ∧
    2 ≤ ([⟨100, 199⟩, ⟨200, 299⟩] : List Kline).length :=
  ⟨rfl,
   get_historical_data_not_short twoBarOracle "BTCUSDT" "1h" true 2 false
     none 0 0 [⟨100, 199⟩, ⟨200, 299⟩] [(none, 2)] rfl
     (by with_unfolding_all rfl)⟩

/-- Claim C6 counterexample: in the since (forward) mode a request for 5
bars against an exchange holding only 2 returns the 2-bar series without
any insufficient-data error, refuting the claim for that mode. -/
theorem get_historical_data_forward_short :
    get_historical_data twoBarOracle "BTCUSDT" "1h" true (some 5) false
      (some 1) 0 5 =
      .ok ([⟨100, 199⟩, ⟨200, 299⟩], [(some 1, 5)]) ∧
    ([⟨100, 199⟩, ⟨200, 299⟩] : List Kline).length < 5 :=
  ⟨by with_unfolding_all rfl, by decide⟩

/-- Oracle holding exactly five closed bars, newest last; any request gets
the full history. -/
def fiveBarOracle : Option Int → Nat → List Kline :=
  fun _ _ =>
    [⟨100, 199⟩, ⟨200, 299⟩, ⟨300, 399⟩, ⟨400, 499⟩, ⟨500, 599⟩]

/-- Claim C5 (code_bug evidence): in count-bounded backward mode with
closed=true and limit=3 the code increments limit twice (limit += 1 both
before and inside the backward branch), so the single page request asks
for 5 = limit + 2 bars — not the claimed limit + 1 — and after dropping
exactly one final bar the caller receives 4 = limit + 1 bars instead of
exactly limit.  The repository's own unit test asserts
len(klines) == limit for this call shape. -/
theorem get_historical_data_double_increment :
    get_historical_data fiveBarOracle "BTCUSDT" "1h" true (some 3) true
      none 0 0 =
      .ok ([⟨100, 199⟩, ⟨200, 299⟩, ⟨300, 399⟩, ⟨400, 499⟩], [(none, 5)]) ∧
    ([⟨100, 199⟩, ⟨200, 299⟩, ⟨300, 399⟩, ⟨400, 499⟩] : List Kline).length
      = 3 + 1 :=
  ⟨by with_unfolding_all rfl, by decide⟩

/-- Claim C3 (amended): once a _set_isolated_margin call for a symbol
completes without raising — the mode change succeeded or the exchange
answered "no need to change margin type", which is treated as success —
the symbol is recorded as configured, so two such calls issue exactly one
network mode-change call and any later call for a recorded symbol issues
none.  (A call failing with any other error leaves the symbol unrecorded,
so a subsequent call retries the network request; see the
counterexample.) -/
theorem set_isolated_margin_idempotent
    (isolated : List String) (s : String) (r1 r2 : ApiResp Unit)
    (hnew : s ∉ isolated) (hok : marginRespBenign r1 = true) :
    (runMarginCalls isolated [(s, r1), (s, r2)]).2.count s = 1 ∧
    s ∈ (runMarginCalls isolated [(s, r1), (s, r2)]).1 ∧
    (∀ (st : List String) (r : ApiResp Unit), s ∈ st →
      (set_isolated_margin st s r).2.1 = []) := by
  have hstep : set_isolated_margin isolated s r1 = (s :: isolated, [s], none) := by
    cases r1 with
    | ok v => simp [set_isolated_margin, hnew]
    | apiErr msg =>
        have hc : strContains msg noNeedMsg = true := by
          simpa [marginRespBenign] using hok
        simp [set_isolated_margin, hnew, hc]
  have hstep2 : set_isolated_margin (s :: isolated) s r2 =
      (s :: isolated, [], none) := by
    simp [set_isolated_margin]
  refine ⟨?_, ?_, ?_⟩
  · simp [runMarginCalls, hstep, hstep2]
  · simp [runMarginCalls, hstep, hstep2]
  · intro st r hst
    simp [set_isolated_margin, hst]

/-- Claim C3 witness: a fresh symbol, two calls whose first response is a
success; exactly one mode-change network call is issued. -/
theorem set_isolated_margin_idempotent_witness :
    ("ABCUSDT" ∉ ([] : List String)) ∧
    (runMarginCalls []
      [("ABCUSDT", ApiResp.ok ()), ("ABCUSDT", ApiResp.ok ())]).2.count
        "ABCUSDT" = 1 :=
  ⟨by simp,
   (set_isolated_margin_idempotent [] "ABCUSDT" (.ok ()) (.ok ())
     (by simp) (by decide)).1⟩

/-- Claim C3 counterexample: when the first mode-change call fails with an
error other than "no need to change margin type", the symbol is not
recorded and the second call issues a second network mode-change call —
two calls for one symbol within one process lifetime, refuting "at most
one". -/
theorem set_isolated_margin_retry_after_error :
    (runMarginCalls []
      [("ABCUSDT", ApiResp.apiErr "APIError(code=-1000): internal error"),
       ("ABCUSDT", ApiResp.ok ())]).2.count "ABCUSDT" = 2 := by
  with_unfolding_all decide

/-- Claim C1 (code_bug evidence): with a successful entry order (orderId
111) and a stop-loss submission the exchange rejects, place_market_order
raises a plain Exception whose message embeds the protection error; the
except-BinanceAPIException clause cannot catch it, so the exception
escapes instead of an ExecutionResult envelope being returned — although
the rollback close_position call was issued inside
set_stop_loss_take_profit. -/
theorem place_market_order_exception_escapes :
    (place_market_order
        ⟨.ok 100, 2, 3, .ok (), .ok (), .ok 111,
         .apiErr "APIError(code=-2021): Order would immediately trigger.",
         .ok 7⟩
        [] "BTC/USDT" "LONG" 10 100 (some 95) (some 120)).1 =
      Except.error ("⚠️ BTCUSDT LONG 止盈止損設置失敗: APIError(code=-2021): Order would immediately trigger. 請確認是否需要手動平倉。") ∧
    NetCall.closePositionCall "BTCUSDT" "BUY" ∈
      (place_market_order
        ⟨.ok 100, 2, 3, .ok (), .ok (), .ok 111,
         .apiErr "APIError(code=-2021): Order would immediately trigger.",
         .ok 7⟩
        [] "BTC/USDT" "LONG" 10 100 (some 95) (some 120)).2.1 :=
  ⟨by with_unfolding_all rfl, by with_unfolding_all decide⟩

/-- Claim C2 (amended): with both protective prices given, the two legs
are attempted sequentially inside one protected block, not independently:
a stop-loss failure aborts the call before the take-profit leg is ever
submitted; a leg that succeeds is recorded by its details flag = true
while a failed or unattempted leg leaves its flag absent; any leg failure
makes the overall result success = false with the error message recorded
and close_position invoked. -/
theorem sltp_sequential_legs (env : SlTpEnv) (symbol side : String)
    (q1 q2 : ℚ) (h1 : q1 ≠ 0) (h2 : q2 ≠ 0) :
    (∀ m, env.sl_resp = ApiResp.apiErr m →
      (set_stop_loss_take_profit env symbol side (some q1) (some q2)).1.success
          = false ∧
      (set_stop_loss_take_profit env symbol side (some q1)
          (some q2)).1.error_message = some m ∧
      (set_stop_loss_take_profit env symbol side (some q1)
          (some q2)).1.details.stop_loss_set = none ∧
      (set_stop_loss_take_profit env symbol side (some q1)
          (some q2)).1.details.take_profit_set = none ∧
      (set_stop_loss_take_profit env symbol side (some q1) (some q2)).2 =
        [NetCall.createAlgoOrder (modify_symbol_name symbol)
           (if isBuyish side then "SELL" else "BUY") "STOP_MARKET"
           (truncate_to_precision q1 env.price_precision),
         NetCall.closePositionCall (modify_symbol_name symbol)
           (if isBuyish side then "BUY" else "SELL")]) ∧
    (∀ i m, env.sl_resp = ApiResp.ok i → env.tp_resp = ApiResp.apiErr m →
      (set_stop_loss_take_profit env symbol side (some q1) (some q2)).1.success
          = false ∧
      (set_stop_loss_take_profit env symbol side (some q1)
          (some q2)).1.error_message = some m ∧
      (set_stop_loss_take_profit env symbol side (some q1)
          (some q2)).1.details.stop_loss_set = some true ∧
      (set_stop_loss_take_profit env symbol side (some q1)
          (some q2)).1.details.take_profit_set = none ∧
      (set_stop_loss_take_profit env symbol side (some q1) (some q2)).2 =
        [NetCall.createAlgoOrder (modify_symbol_name symbol)
           (if isBuyish side then "SELL" else "BUY") "STOP_MARKET"
           (truncate_to_precision q1 env.price_precision),
         NetCall.createAlgoOrder (modify_symbol_name symbol)
           (if isBuyish side then "SELL" else "BUY") "TAKE_PROFIT_MARKET"
           (truncate_to_precision q2 env.price_precision),
         NetCall.closePositionCall (modify_symbol_name symbol)
           (if isBuyish side then "BUY" else "SELL")]) ∧
    (∀ i j, env.sl_resp = ApiResp.ok i → env.tp_resp = ApiResp.ok j →
      (set_stop_loss_take_profit env symbol side (some q1) (some q2)).1.success
          = true ∧
      (set_stop_loss_take_profit env symbol side (some q1)
          (some q2)).1.details.stop_loss_set = some true ∧
      (set_stop_loss_take_profit env symbol side (some q1)
          (some q2)).1.details.take_profit_set = some true ∧
      (set_stop_loss_take_profit env symbol side (some q1) (some q2)).2 =
        [NetCall.createAlgoOrder (modify_symbol_name symbol)
           (if isBuyish side then "SELL" else "BUY") "STOP_MARKET"
           (truncate_to_precision q1 env.price_precision),
         NetCall.createAlgoOrder (modify_symbol_name symbol)
           (if isBuyish side then "SELL" else "BUY") "TAKE_PROFIT_MARKET"
           (truncate_to_precision q2 env.price_precision)]) := by
  refine ⟨?_, ?_, ?_⟩
  · intro m hsl
    simp [set_stop_loss_take_profit, hsl, h1, h2]
  · intro i m hsl htp
    simp [set_stop_loss_take_profit, hsl, htp, h1, h2]
  · intro i j hsl htp
    simp [set_stop_loss_take_profit, hsl, htp, h1, h2]

/-- Claim C2 witness: both legs succeed at a concrete input and the result
is success = true. -/
theorem sltp_sequential_legs_witness :
    (95 : ℚ) ≠ 0 ∧
    (set_stop_loss_take_profit ⟨2, .ok 5, .ok 7⟩ "BTCUSDT" "BUY"
      (some 95) (some 120)).1.success = true :=
  ⟨by norm_num,
   ((sltp_sequential_legs ⟨2, .ok 5, .ok 7⟩ "BTCUSDT" "BUY" 95 120
      (by norm_num) (by norm_num)).2.2 5 7 rfl rfl).1⟩

/-- Claim C2 counterexample: with both prices given and the stop-loss leg
rejected, the network trace contains no TAKE_PROFIT_MARKET submission —
the take-profit leg was never attempted, refuting that a failure of one
leg does not prevent the attempt of the other (and take_profit_set is
absent from details rather than false). -/
theorem sltp_tp_leg_never_attempted :
    (set_stop_loss_take_profit
      ⟨2, .apiErr "APIError(code=-2021): Order would immediately trigger.",
       .ok 7⟩ "BTCUSDT" "BUY" (some 95) (some 120)).2 =
      [NetCall.createAlgoOrder "BTCUSDT" "SELL" "STOP_MARKET" "95.00",
       NetCall.closePositionCall "BTCUSDT" "BUY"] ∧
    (set_stop_loss_take_profit
      ⟨2, .apiErr "APIError(code=-2021): Order would immediately trigger.",
       .ok 7⟩ "BTCUSDT" "BUY" (some 95) (some 120)).1.success = false := by
  with_unfolding_all decide

/-- Claim C10 (amended): a protective price equal to 0 makes its leg be
skipped exactly like an absent price — no order submitted, no set-flag in
details, same success — and the whole outcome coincides with passing None
except that the details dict echoes the input price as 0 instead of
None. -/
theorem sltp_zero_price_skipped (env : SlTpEnv) (symbol side : String)
    (slp tpp : Option ℚ) :
    (set_stop_loss_take_profit env symbol side (some 0) tpp =
      ((fun r => ({ r.1 with details :=
          { r.1.details with stop_loss_price := PriceField.raw 0 } }, r.2))
        (set_stop_loss_take_profit env symbol side none tpp))) ∧
    (set_stop_loss_take_profit env symbol side slp (some 0) =
      ((fun r => ({ r.1 with details :=
          { r.1.details with take_profit_price := PriceField.raw 0 } }, r.2))
        (set_stop_loss_take_profit env symbol side slp none))) := by
  constructor
  · cases tpp with
    | none => simp [set_stop_loss_take_profit, initPriceField]
    | some q =>
        by_cases hq : q = 0
        · simp [set_stop_loss_take_profit, initPriceField, hq]
        · cases htp : env.tp_resp <;>
            simp [set_stop_loss_take_profit, initPriceField, hq, htp]
  · cases slp with
    | none => simp [set_stop_loss_take_profit, initPriceField]
    | some q =>
        by_cases hq : q = 0
        · simp [set_stop_loss_take_profit, initPriceField, hq]
        · cases hsl : env.sl_resp <;>
            simp [set_stop_loss_take_profit, initPriceField, hq, hsl]

/-- Claim C10 counterexample: the full result envelopes for a 0 stop-loss
price and for None differ (the details entry holds 0 versus None), so the
outcome is not literally identical to passing None. -/
theorem sltp_zero_vs_none_results_differ :
    (set_stop_loss_take_profit ⟨2, .ok 1, .ok 2⟩ "BTCUSDT" "BUY"
      (some 0) none).1 ≠
    (set_stop_loss_take_profit ⟨2, .ok 1, .ok 2⟩ "BTCUSDT" "BUY"
      none none).1 := by
  with_unfolding_all decide

/-- Claim C7 (amended): for any nonnegative value v and precision p,
truncate_to_precision rounds toward zero at p fractional digits so the
result never exceeds v, the decimal string has at most p fractional
digits, and truncate(0.123456, 3) = "0.123", truncate(10, 0) = "10".
(For negative v the toward-zero rounding can exceed v, see the
counterexample.) -/
theorem truncate_to_precision_props (v : ℚ) (p : Nat) :
    (0 ≤ v → truncValue v p ≤ v) ∧
    fracDigitCount (truncate_to_precision v p) ≤ p ∧
    truncate_to_precision (0.123456 : ℚ) 3 = "0.123" ∧
    truncate_to_precision (10 : ℚ) 0 = "10" := by
  refine ⟨?_, ?_, by with_unfolding_all rfl, by with_unfolding_all rfl⟩
  · intro hv
    have hq : (0 : ℚ) ≤ v * 10 ^ p := by positivity
    have hnum : 0 ≤ (v * 10 ^ p).num := Rat.num_nonneg.2 hq
    have hE : ratTruncInt (v * 10 ^ p) =
        (v * 10 ^ p).num / ((v * 10 ^ p).den : Int) :=
      Int.tdiv_eq_ediv hnum (by positivity)
    have hfloor := Rat.floor_intCast_div_natCast (v * 10 ^ p).num (v * 10 ^ p).den
    rw [Rat.num_div_den] at hfloor
    have hfl : ratTruncInt (v * 10 ^ p) = ⌊v * 10 ^ p⌋ := by rw [hE, ← hfloor]
    calc truncValue v p = ((⌊v * 10 ^ p⌋ : ℤ) : ℚ) / 10 ^ p := by
            rw [truncValue, hfl]
      _ ≤ (v * 10 ^ p) / 10 ^ p := by gcongr; exact Int.floor_le _
      _ = v := by field_simp
  · unfold truncate_to_precision
    exact fracDigitCount_renderQuantized _ _ _

/-- Claim C7 witness: the value bound instantiated at v = 0.123456, p = 3. -/
theorem truncate_to_precision_props_witness :
    (0 : ℚ) ≤ 0.123456 ∧ truncValue (0.123456 : ℚ) 3 ≤ (0.123456 : ℚ) :=
  ⟨by norm_num, (truncate_to_precision_props (0.123456 : ℚ) 3).1 (by norm_num)⟩

/-- Claim C7 counterexample: at v = -0.1239 and p = 3 the truncation
rounds toward zero to -0.123, which exceeds v, refuting the claim that for
any value v the result never exceeds v. -/
theorem truncate_to_precision_exceeds_neg :
    (-0.1239 : ℚ) < truncValue (-0.1239 : ℚ) 3 := by
  with_unfolding_all decide

end CryptoAPI
